import Mathlib

/-!
Verification development for the HOI loss-computation core
(`src/models/criterion.py`, class `SetCriterion`).

The Python code is shallowly embedded:
* tensors are lists of lists of reals (ragged arrays), or `ℕ → ℕ → ℝ`
  functions together with explicit dimensions where that is more convenient;
* `torch` reductions (`sum`, `mean`) become list/`Finset` sums with explicit
  divisions; real division by zero is Lean's `0`-convention (the corresponding
  Python calls would raise, and no claim depends on those inputs);
* Python `assert`/`raise` become `Except String`;
* the distributed primitives (`utils.misc`) and `utils.box_ops`, which are
  part of the repository but not present under `src/`, are modelled from the
  spec (marked in their doc comments).
-/

set_option autoImplicit false

namespace Criterion

/-! ## Real-valued primitives shared by the loss functions -/

/-- `torch.sigmoid`. -/
noncomputable def sigmoidR (x : ℝ) : ℝ := 1 / (1 + Real.exp (-x))

/-- `F.binary_cross_entropy` on probabilities: `-(y·log p + (1-y)·log (1-p))`
(elementwise, before any reduction). -/
noncomputable def bceR (p y : ℝ) : ℝ := -(y * Real.log p + (1 - y) * Real.log (1 - p))

/-- `F.binary_cross_entropy_with_logits` (elementwise, before any reduction):
binary cross-entropy of `sigmoid x` against `y`. -/
noncomputable def bceLogitsR (x y : ℝ) : ℝ := bceR (sigmoidR x) y

/-! ## `SetCriterion.masked_out_cross_entropy` (criterion.py lines 112-134)

The function receives the *transposed* logit matrix (`[num_targets_local,
num_matched]`) and the matching transposed 0/1 indicator matrix.  We embed
matrices as `ℕ → ℕ → ℝ` / `ℕ → ℕ → Bool` functions with explicit dimensions
`n` (rows) and `m` (columns); `target_classes` holds only the values 0 and 1,
hence the `Bool` entries.  `torch.nonzero` on a boolean row becomes a
`Finset.filter` over the column range, `torch.argmax` on a 0/1 row becomes
"least index holding a 1, else 0" (PyTorch's argmax returns the first
occurrence of the maximum). -/

/-- `target_classes.sum(dim=-1)` for one 0/1 row: the number of positive
columns. -/
def numPos (m : ℕ) (t : ℕ → Bool) : ℕ :=
  ((Finset.range m).filter (fun j => t j = true)).card

/-- Least member of `s` on which `t` holds, else `0`.  This is
`torch.argmax` of the 0/1 vector obtained by restricting `t` to `s` (taken in
increasing index order): the first occurrence of the maximum, composed with
the enumeration of `s`, for vectors with at least one `1`; for an all-zero
vector argmax is position `0`, and we use default `0`. -/
def firstTrueIn (s : Finset ℕ) (t : ℕ → Bool) : ℕ :=
  if h : (s.filter (fun j => t j = true)).Nonempty then
    (s.filter (fun j => t j = true)).min' h
  else 0

/-- `torch.argmax(t, dim=-1)` for one 0/1 row of width `m`. -/
def rowArgmax (m : ℕ) (t : ℕ → Bool) : ℕ :=
  firstTrueIn (Finset.range m) t

/-- The kept column set of the inner loop: `mask = (t == 0); mask[j] = True`
keeps the negative columns and `j`. -/
def kept (m : ℕ) (t : ℕ → Bool) (j : ℕ) : Finset ℕ :=
  (Finset.range m).filter (fun k => t k = false ∨ k = j)

/-- `tgt = t[mask].argmax(dim=-1)`: the argmax position of the indicator row
compacted to the kept columns, rendered as the corresponding column index
(the logit the subsequent cross-entropy picks is the one at that column). -/
def maskedTarget (m : ℕ) (t : ℕ → Bool) (j : ℕ) : ℕ :=
  firstTrueIn (kept m t j) t

/-- `F.cross_entropy` of a single row of width `m` against class index `tgt`
(no reduction): `log (Σ_j exp l_j) - l_tgt`. -/
noncomputable def ce (m : ℕ) (l : ℕ → ℝ) (tgt : ℕ) : ℝ :=
  Real.log (∑ j ∈ Finset.range m, Real.exp (l j)) - l tgt

/-- `F.cross_entropy` of a single row restricted to the column set `K`
against the column index `tgt ∈ K` (the logit picked at the compacted argmax
position is `l tgt`). -/
noncomputable def ceOn (K : Finset ℕ) (l : ℕ → ℝ) (tgt : ℕ) : ℝ :=
  Real.log (∑ k ∈ K, Real.exp (l k)) - l tgt

/-- `SetCriterion.masked_out_cross_entropy(src_logits, target_classes)`.
`L` is the (already transposed) `[n, m]` logit matrix, `T` the matching 0/1
indicator matrix.  First summand: the vectorized
`F.cross_entropy(src_logits[indices], targets_one_pos, reduction="sum")` over
the rows with `num_pos < 2`; second summand: the Python loop over rows with
`num_pos > 1`, each contributing its per-positive-column masked
cross-entropies summed and divided by `cnt = sum(t)`; finally division by
`len(src_logits) = n`. -/
noncomputable def masked_out_cross_entropy (n m : ℕ) (L : ℕ → ℕ → ℝ)
    (T : ℕ → ℕ → Bool) : ℝ :=
  ((∑ i ∈ (Finset.range n).filter (fun i => numPos m (T i) < 2),
      ce m (L i) (rowArgmax m (T i)))
   + ∑ i ∈ (Finset.range n).filter (fun i => 1 < numPos m (T i)),
      (∑ j ∈ (Finset.range m).filter (fun j => T i j = true),
          ceOn (kept m (T i) j) (L i) (maskedTarget m (T i) j))
        / (numPos m (T i) : ℝ)) / (n : ℝ)

/-- Plain mean-reduced multi-class cross-entropy of `n` logit rows against a
target index per row — the reference computation the spec compares the
single-positive case against (`F.cross_entropy(logits, targets)` with the
default mean reduction). -/
noncomputable def meanCrossEntropy (n m : ℕ) (L : ℕ → ℕ → ℝ) (tgt : ℕ → ℕ) : ℝ :=
  (∑ i ∈ Finset.range n, ce m (L i) (tgt i)) / (n : ℝ)

/-- Concrete 2×2 indicator with one single-positive row and one
multi-positive row, used by witnesses. -/
def exT : ℕ → ℕ → Bool := fun i j => (i == 1) || (j == 0)

/-- Concrete 2×2 indicator with exactly one positive per row. -/
def exTsingle : ℕ → ℕ → Bool := fun i j => i == j

/-- All-zero indicator, used by the zero-positive-row witness. -/
def exTzero : ℕ → ℕ → Bool := fun _ _ => false

/-- Concrete logit matrix used by witnesses. -/
noncomputable def exL : ℕ → ℕ → ℝ := fun i j => (i : ℝ) + (j : ℝ)

/-! ## Data model

`Tensor` stands for the (up to) 3-dimensional real tensors appearing in the
Prediction Output mapping: `logits_per_hoi` is `[batch][slot][class]`,
`pred_boxes` is `[batch][slot][8]`, `box_scores` is `[batch][slot][1]`, and
the region logits `hum_region`/`obj_region`/`uni_region` are
`[batch][H][W]` (one map per image; see `model.py`, where they are reshaped
to `(bs, patch_dim, patch_dim)`).  A Python dict is an association list with
unique keys; insertion order is preserved, overwriting keeps the position. -/

abbrev Tensor := List (List (List ℝ))

abbrev TDict := List (String × Tensor)

abbrev LossMap := List (String × ℝ)

/-- One interaction annotation of a Target Record. -/
structure Hoi where
  subject_id : ℕ
  object_id : ℕ
  hoi_id : ℕ

/-- One Target Record (one image). -/
structure Target where
  hois : List Hoi
  boxes : List (List ℝ)
  mask_region_hw : List (List (List ℝ))

/-- The Prediction Output: the top-level tensor entries, plus the
`aux_outputs` key when present (`none` models the key being absent;
auxiliary layers are plain tensor dicts and carry no `aux_outputs` key). -/
structure Outputs where
  entries : TDict
  auxOutputs : Option (List TDict)

/-- An Assignment: one `(predicted-slot-indices, target-indices)` pair per
image, as produced by the external matcher. -/
abbrev Assignment := List (List ℕ × List ℕ)

/-- The external matcher (out of scope; consumed as a function).  For the
auxiliary-layer invocations the matcher receives the bare layer dict. -/
abbrev Matcher := Outputs → List Target → Assignment

/-- `SetCriterion.__init__` configuration, together with the `nn.Module`
`training` flag. -/
structure Config where
  losses : List String
  eos_coef : ℝ
  enable_focal_loss : Bool
  focal_alpha : ℝ
  focal_gamma : ℝ
  consider_all : Bool
  training : Bool

/-- Modelled from the spec: the distributed-runtime interface of
`utils.misc` (`is_dist_avail_and_initialized`, `torch.distributed.all_reduce`,
`get_world_size`), which is repository code not under `src/`.  `allReduce`
is the in-place sum across workers; absent distributed context means
`isDist = false`, `worldSize = 1` and a no-op reduce. -/
structure DistCtx where
  isDist : Bool
  allReduce : ℝ → ℝ
  worldSize : ℕ

/-- Python `d[k] = v` on a dict rendered as an association list: overwrite
in place if the key exists (keeping its position), else append. -/
def insKV {β : Type} : List (String × β) → String → β → List (String × β)
  | [], k, v => [(k, v)]
  | (k', v') :: rest, k, v =>
    if k' = k then (k, v) :: rest else (k', v') :: insKV rest k v

/-- Python `d.update(new)`: insert the new bindings in order. -/
def updKV {β : Type} (d : List (String × β)) (new : List (String × β)) :
    List (String × β) :=
  new.foldl (fun acc p => insKV acc p.1 p.2) d

/-! ## Permutation Indexer (`_get_src_permutation_idx`, lines 231-235) -/

/-- `torch.cat` on a list of 1-d tensors: raises a `RuntimeError` on an
empty list of tensors, else concatenates. -/
def torchCat {α : Type} : List (List α) → Except String (List α)
  | [] => Except.error "RuntimeError: torch.cat expected a non-empty list of Tensors"
  | ls => Except.ok ls.join

/-- `_get_src_permutation_idx`, faithfully including the `torch.cat` error
path: `batch_idx = cat([full_like(src, i) ...])` (line 233) and
`src_idx = cat([src ...])` (line 234) both raise on the zero-image (empty
list) assignment, the first one first. -/
def getSrcPermutationIdxE (indices : Assignment) :
    Except String (List ℕ × List ℕ) :=
  match torchCat (indices.enum.map (fun p => List.replicate p.2.1.length p.1)) with
  | Except.error e => Except.error e
  | Except.ok batchIdx =>
    match torchCat (indices.map (fun p => p.1)) with
    | Except.error e => Except.error e
    | Except.ok srcIdx => Except.ok (batchIdx, srcIdx)

/-- The value of `_get_src_permutation_idx` on the assignments where
`torch.cat` does not raise (one pair per image, the matcher contract):
the concatenations written out.  On the nonempty assignments this agrees
with `getSrcPermutationIdxE` (proved below); the loss functions consume
this value. -/
def getSrcPermutationIdx (indices : Assignment) : List ℕ × List ℕ :=
  ((indices.enum.map (fun p => List.replicate p.2.1.length p.1)).join,
   (indices.map (fun p => p.1)).join)

/-- The flattened matched `(batch, slot)` coordinate pairs. -/
def matchedPairs (indices : Assignment) : List (ℕ × ℕ) :=
  (getSrcPermutationIdx indices).1.zip (getSrcPermutationIdx indices).2

/-- Advanced indexing `tensor[batch_idx, src_idx]`: gather one row per
matched pair. -/
def gatherRows (t : Tensor) (indices : Assignment) : List (List ℝ) :=
  (matchedPairs indices).map (fun p => (t.getD p.1 []).getD p.2 [])

/-! ## Label Resolver (`_get_tgt_labels`, lines 243-270) -/

/-- All `hoi_id`s of the batch in enumeration order. -/
def collectHoiIds (targets : List Target) : List ℕ :=
  targets.bind (fun t => t.hois.map (fun h => h.hoi_id))

/-- The `unique_hois` map: distinct ids in order of first appearance; the
local id of a global id is its index in this list. -/
def uniqueHois (targets : List Target) : List ℕ :=
  (collectHoiIds targets).foldl (fun acc h => if h ∈ acc then acc else acc ++ [h]) []

/-- The matched interactions' annotations in assignment order: for each
image, `t["hois"][i]` for `i` in the target-index sequence. -/
def matchedHois (targets : List Target) (indices : Assignment) : List Hoi :=
  (targets.zip indices).bind
    (fun ti => ti.2.2.map (fun i => ti.1.hois.getD i ⟨0, 0, 0⟩))

/-- `_get_tgt_labels`: the single-label targets `target_classes_i`, and (in
training mode without `consider_all`) the pair of the mini-batch class count
`cnt` (the tensor's second dimension, kept explicitly so that `shape[1]`
survives the empty-row case) and the one-hot rows of `target_classes_t`;
`none` models Python's `None`. -/
def getTgtLabels (c : Config) (targets : List Target) (indices : Assignment) :
    List ℕ × Option (ℕ × List (List ℕ)) :=
  if c.training && !c.consider_all then
    let u := uniqueHois targets
    let cnt := u.length
    let tci := (matchedHois targets indices).map (fun h => u.indexOf h.hoi_id)
    let numFgs := (indices.map (fun p => p.1.length)).sum
    let tct := (List.range numFgs).map (fun r =>
      (List.range cnt).map (fun col => if tci.getD r cnt = col then (1 : ℕ) else 0))
    (tci, some (cnt, tct))
  else
    ((matchedHois targets indices).map (fun h => h.hoi_id), none)

/-! ## Loss Function Set -/

/-- Modelled from the spec: `utils.misc.accuracy` (repository code not under
`src/`): top-1 accuracy percentage of logit rows against integer targets
(diagnostic only, no claim depends on its value). -/
noncomputable def rowArgmaxR (l : List ℝ) : ℕ :=
  ((l.enum.argmax (fun p => p.2)).map (fun p => p.1)).getD 0

/-- Modelled from the spec: top-1 accuracy percentage (see `rowArgmaxR`). -/
noncomputable def accuracyTop1 (rows : List (List ℝ)) (tgts : List ℕ) : ℝ :=
  100 * (((rows.zip tgts).filter (fun p => rowArgmaxR p.1 == p.2)).length : ℝ)
    / (rows.length : ℝ)

/-- One elementwise term of `binary_focal_loss_with_logits` (lines 34-79):
`|1 - y - α| · (|y - σ(x)| + ε)^γ · BCE_with_logits(x, y)`. -/
noncomputable def binaryFocalTerm (alpha gamma eps x y : ℝ) : ℝ :=
  |1 - y - alpha| * (|y - sigmoidR x| + eps) ^ gamma * bceLogitsR x y

/-- `binary_focal_loss_with_logits(..., reduction='sum')`, the only form
`loss_labels` invokes (`eps` defaults to `1e-6`; the unsupported-reduction
`ValueError` branch is not modelled since no claim touches it). -/
noncomputable def binaryFocalSum (x y : List (List ℝ)) (alpha gamma : ℝ) : ℝ :=
  (((x.zip y).map (fun p =>
      ((p.1.zip p.2).map (fun q =>
          binaryFocalTerm alpha gamma (1 / 1000000) q.1 q.2)).sum)).sum)

/-- `F.cross_entropy(rows, tgts)` with the default mean reduction. -/
noncomputable def meanCeRows (rows : List (List ℝ)) (tgts : List ℕ) : ℝ :=
  (((rows.zip tgts).map (fun p =>
      Real.log ((p.1.map Real.exp).sum) - p.1.getD p.2 0)).sum)
    / (rows.length : ℝ)

/-- `SetCriterion.loss_labels` (lines 81-110).  The focal branch builds the
one-hot labels over the gathered logit width; the contrastive branch
averages `loss_i` (image→text) with the masked multi-label `loss_t`
(text→image, training only).  `target_classes_t` being `None` while the
training gate still dereferences `.shape` is modelled by the error case. -/
noncomputable def loss_labels (c : Config) (ld : TDict) (targets : List Target)
    (indices : Assignment) : Except String LossMap :=
  match ld.lookup "logits_per_hoi" with
  | none => Except.error "assert logits_per_hoi in outputs"
  | some lg =>
    let tl := getTgtLabels c targets indices
    let tci := tl.1
    let gathered := gatherRows lg indices
    let cerr := 100 - accuracyTop1 gathered tci
    if c.enable_focal_loss then
      let labels := gathered.enum.map (fun p =>
        (List.range p.2.length).map
          (fun col => if tci.getD p.1 p.2.length = col then (1 : ℝ) else 0))
      Except.ok [("loss_ce",
          binaryFocalSum gathered labels c.focal_alpha c.focal_gamma
            / (gathered.length : ℝ)),
        ("class_error", cerr)]
    else
      let lossI := meanCeRows gathered tci
      if c.training then
        match tl.2 with
        | none => Except.error "AttributeError: NoneType object has no attribute shape"
        | some ct =>
          let lossT := masked_out_cross_entropy ct.1 gathered.length
            (fun i k => (gathered.getD k []).getD i 0)
            (fun i k => (ct.2.getD k []).getD i 0 == 1)
          Except.ok [("loss_ce", (lossI + lossT) / 2), ("class_error", cerr)]
      else
        Except.ok [("loss_ce", lossI), ("class_error", cerr)]

/-- `loss_conf` value: weighted `F.binary_cross_entropy` of the sigmoided
`box_scores` (flattened `[batch][slot][1]`) against the matched-slot
indicator, weight `1` on matched slots and `eos_coef` elsewhere, averaged
over all slots. -/
noncomputable def lossConfVal (scores : Tensor) (indices : Assignment)
    (eos : ℝ) : ℝ :=
  let slots := (List.range scores.length).bind (fun b =>
    (List.range ((scores.getD b []).length)).map (fun s => (b, s)))
  ((slots.map (fun p =>
      let x := ((scores.getD p.1 []).getD p.2 []).getD 0 0
      let y : ℝ := if p ∈ matchedPairs indices then 1 else 0
      let w : ℝ := if p ∈ matchedPairs indices then 1 else eos
      w * bceR (sigmoidR x) y)).sum) / (slots.length : ℝ)

/-- `SetCriterion.loss_confidences` (lines 136-151). -/
noncomputable def loss_confidences (c : Config) (ld : TDict)
    (targets : List Target) (indices : Assignment) : Except String LossMap :=
  match ld.lookup "box_scores" with
  | none => Except.error "assert box_scores in outputs"
  | some scores => Except.ok [("loss_conf", lossConfVal scores indices c.eos_coef)]

/-- The ground-truth subject+object 8-tuples of the matched interactions:
`cat([boxes[subject_id], boxes[object_id]])` per matched pair, in assignment
order (loss_boxes lines 161-167; the `torch.stack` on an all-background
assignment raises in PyTorch, which no claim exercises). -/
def targetBoxRows (targets : List Target) (indices : Assignment) : List (List ℝ) :=
  (targets.zip indices).bind (fun ti => ti.2.2.map (fun i =>
    let h := ti.1.hois.getD i ⟨0, 0, 0⟩
    (ti.1.boxes.getD h.subject_id []) ++ (ti.1.boxes.getD h.object_id [])))

/-- Modelled from the spec: `utils.box_ops.box_cxcywh_to_xyxy` (repository
code not under `src/`): center-form to corner-form conversion. -/
noncomputable def cxcywhToXyxy (b : List ℝ) : List ℝ :=
  [b.getD 0 0 - b.getD 2 0 / 2, b.getD 1 0 - b.getD 3 0 / 2,
   b.getD 0 0 + b.getD 2 0 / 2, b.getD 1 0 + b.getD 3 0 / 2]

/-- Modelled from the spec: `utils.box_ops.generalized_box_iou` (repository
code not under `src/`) for one pair of corner-form boxes: IoU minus the
normalized area of the enclosing box not covered by the union
(`loss_boxes` only consumes the diagonal of the pairwise matrix, i.e. each
prediction against its own paired target). -/
noncomputable def generalizedBoxIou (a b : List ℝ) : ℝ :=
  let ax0 := a.getD 0 0
  let ay0 := a.getD 1 0
  let ax1 := a.getD 2 0
  let ay1 := a.getD 3 0
  let bx0 := b.getD 0 0
  let by0 := b.getD 1 0
  let bx1 := b.getD 2 0
  let by1 := b.getD 3 0
  let inter := max 0 (min ax1 bx1 - max ax0 bx0) * max 0 (min ay1 by1 - max ay0 by0)
  let uni := (ax1 - ax0) * (ay1 - ay0) + (bx1 - bx0) * (by1 - by0) - inter
  let encl := (max ax1 bx1 - min ax0 bx0) * (max ay1 by1 - min ay0 by0)
  inter / uni - (encl - uni) / encl

/-- Summed elementwise L1 distance over paired rows
(`F.l1_loss(..., reduction='none')` followed by `.sum()`). -/
noncomputable def l1Sum (src tgt : List (List ℝ)) : ℝ :=
  ((src.zip tgt).map (fun p =>
    ((p.1.zip p.2).map (fun q => |q.1 - q.2|)).sum)).sum

/-- `losses['loss_bbox']`: subject-box and object-box L1 sums, each divided
by the normalizer and added. -/
noncomputable def lossBboxVal (pb : Tensor) (targets : List Target)
    (indices : Assignment) (nb : ℝ) : ℝ :=
  let src := gatherRows pb indices
  let tgt := targetBoxRows targets indices
  l1Sum (src.map (fun r => r.take 4)) (tgt.map (fun r => r.take 4)) / nb
    + l1Sum (src.map (fun r => r.drop 4)) (tgt.map (fun r => r.drop 4)) / nb

/-- `losses['loss_giou']`: `1 - diag(generalized_box_iou(...))` summed for
subject and object boxes, each divided by the normalizer and added. -/
noncomputable def lossGiouVal (pb : Tensor) (targets : List Target)
    (indices : Assignment) (nb : ℝ) : ℝ :=
  let src := gatherRows pb indices
  let tgt := targetBoxRows targets indices
  (((src.zip tgt).map (fun p =>
      1 - generalizedBoxIou (cxcywhToXyxy (p.1.take 4)) (cxcywhToXyxy (p.2.take 4)))).sum) / nb
    + (((src.zip tgt).map (fun p =>
      1 - generalizedBoxIou (cxcywhToXyxy (p.1.drop 4)) (cxcywhToXyxy (p.2.drop 4)))).sum) / nb

/-- `SetCriterion.loss_boxes` (lines 153-183). -/
noncomputable def loss_boxes (ld : TDict) (targets : List Target)
    (indices : Assignment) (nb : ℝ) : Except String LossMap :=
  match ld.lookup "pred_boxes" with
  | none => Except.error "assert pred_boxes in outputs"
  | some pb => Except.ok
      [("loss_bbox", lossBboxVal pb targets indices nb),
       ("loss_giou", lossGiouVal pb targets indices nb)]

/-- `outputs['hum_region'][idx[0]]`: the region logits are indexed with the
batch indices only — each matched prediction receives the (per-image, not
per-slot) region map of the image it belongs to. -/
def gatherByBatch (t : Tensor) (indices : Assignment) : List (List (List ℝ)) :=
  (getSrcPermutationIdx indices).1.map (fun b => t.getD b [])

/-- The target masks: per matched interaction, `mask_region_hw` at the
subject or object box id (`pick`). -/
def targetMasks (pick : Hoi → ℕ) (targets : List Target)
    (indices : Assignment) : List (List (List ℝ)) :=
  (targets.zip indices).bind (fun ti => ti.2.2.map (fun i =>
    ti.1.mask_region_hw.getD (pick (ti.1.hois.getD i ⟨0, 0, 0⟩)) []))

/-- `torch.max(a, b)` on two stacked mask tensors: elementwise maximum. -/
def unionMasks (a b : List (List (List ℝ))) : List (List (List ℝ)) :=
  (a.zip b).map (fun p =>
    (p.1.zip p.2).map (fun q =>
      (q.1.zip q.2).map (fun r => max r.1 r.2)))

/-- `F.binary_cross_entropy_with_logits(pred, tgt, reduction='mean')` over
stacked `[K][H][W]` masks: elementwise BCE-with-logits averaged over the
prediction's element count. -/
noncomputable def bceMeanMasks (pred tgt : List (List (List ℝ))) : ℝ :=
  ((((pred.join).join).zip ((tgt.join).join)).map
      (fun p => bceLogitsR p.1 p.2)).sum / (((pred.join).join).length : ℝ)

/-- `SetCriterion.loss_masks` (lines 185-228). -/
noncomputable def loss_masks (ld : TDict) (targets : List Target)
    (indices : Assignment) : Except String LossMap :=
  match ld.lookup "hum_region", ld.lookup "obj_region", ld.lookup "uni_region" with
  | some hr, some objr, some ur =>
    let ph := gatherByBatch hr indices
    let po := gatherByBatch objr indices
    let pu := gatherByBatch ur indices
    let th := targetMasks (fun h => h.subject_id) targets indices
    let tobj := targetMasks (fun h => h.object_id) targets indices
    let tu := unionMasks th tobj
    Except.ok
      [("loss_hum_mask", bceMeanMasks ph th),
       ("loss_obj_mask", bceMeanMasks po tobj),
       ("loss_uni_mask", bceMeanMasks pu tu)]
  | _, _, _ => Except.error "assert regions in outputs"

/-! ## Loss Orchestrator (`get_loss` and `forward`, lines 272-313) -/

/-- `SetCriterion.get_loss`: dispatch on the loss name; unknown names fail
the assert. -/
noncomputable def get_loss (c : Config) (loss : String) (ld : TDict)
    (targets : List Target) (indices : Assignment) (nb : ℝ) :
    Except String LossMap :=
  if loss = "labels" then loss_labels c ld targets indices
  else if loss = "boxes" then loss_boxes ld targets indices nb
  else if loss = "confidences" then loss_confidences c ld targets indices
  else if loss = "masks" then loss_masks ld targets indices
  else Except.error "do you really want to compute that loss?"

/-- `sum(len(t[hois]) for t in targets)`. -/
def localNumBoxes (targets : List Target) : ℕ :=
  (targets.map (fun t => t.hois.length)).sum

/-- The normalizer of `forward` (lines 292-297): the batch's ground-truth
interaction count, all-reduced when distributed (modelled from the spec for
the `utils.misc` part), divided by the world size and clamped to a minimum
of 1 (`torch.clamp(..., min=1)` is `max · 1`). -/
noncomputable def computeNumBoxes (dc : DistCtx) (targets : List Target) : ℝ :=
  let nb : ℝ := (localNumBoxes targets : ℝ)
  let nb := if dc.isDist then dc.allReduce nb else nb
  max (nb / (dc.worldSize : ℝ)) 1

/-- The primary loss loop of `forward` (lines 300-302): fold the requested
losses, merging each result into the loss dict. -/
noncomputable def primaryLosses (c : Config) (ld : TDict)
    (targets : List Target) (indices : Assignment) (nb : ℝ) :
    Except String LossMap :=
  c.losses.foldlM (fun acc loss => do
    let d ← get_loss c loss ld targets indices nb
    pure (updKV acc d)) []

/-- `aux_outputs.update({'logits_per_hoi': outputs['logits_per_hoi']})`: the
in-place injection of the primary classification logits into an auxiliary
layer dict. -/
def injectLogits (lg : Tensor) (d : TDict) : TDict :=
  insKV d "logits_per_hoi" lg

/-- The fresh per-layer assignment: the matcher re-invoked on the injected
auxiliary layer dict (which carries no `aux_outputs` key). -/
def auxLayerIdx (m : Matcher) (lg : Tensor) (targets : List Target)
    (a : TDict) : Assignment :=
  m ⟨injectLogits lg a, none⟩ targets

/-- The auxiliary-layer loop of `forward` (lines 304-311), with the loop
state (loss dict, current `indices`, processed layers) made explicit.  Each
iteration mutates the layer dict by injecting the primary logits, re-invokes
the matcher on it, computes the `boxes` and `confidences` losses and merges
them with keys suffixed `_<layer index>`. -/
noncomputable def auxLoop (c : Config) (m : Matcher) (ents : TDict)
    (targets : List Target) (nb : ℝ) :
    ℕ → List TDict → LossMap → Assignment →
    Except String (LossMap × Assignment × List TDict)
  | _, [], ls, idx => Except.ok (ls, idx, [])
  | i, a :: rest, ls, idx =>
    match ents.lookup "logits_per_hoi" with
    | none => Except.error "KeyError: logits_per_hoi"
    | some lg =>
      match get_loss c "boxes" (injectLogits lg a) targets
          (m ⟨injectLogits lg a, none⟩ targets) nb with
      | Except.error e => Except.error e
      | Except.ok d1 =>
        match get_loss c "confidences" (injectLogits lg a) targets
            (m ⟨injectLogits lg a, none⟩ targets) nb with
        | Except.error e => Except.error e
        | Except.ok d2 =>
          match auxLoop c m ents targets nb (i + 1) rest
              (updKV (updKV ls (d1.map (fun p => (p.1 ++ "_" ++ Nat.repr i, p.2))))
                (d2.map (fun p => (p.1 ++ "_" ++ Nat.repr i, p.2))))
              (m ⟨injectLogits lg a, none⟩ targets) with
          | Except.error e => Except.error e
          | Except.ok r => Except.ok (r.1, r.2.1, injectLogits lg a :: r.2.2)

/-- `SetCriterion.forward` (lines 282-313).  Because the Python code mutates
the auxiliary dicts in place, the embedding returns the post-call Prediction
Output alongside the loss dict and the final value of the `indices`
variable. -/
noncomputable def forward (c : Config) (m : Matcher) (dc : DistCtx)
    (outputs : Outputs) (targets : List Target) :
    Except String (LossMap × Assignment × Outputs) :=
  match primaryLosses c outputs.entries targets (m outputs targets)
      (computeNumBoxes dc targets) with
  | Except.error e => Except.error e
  | Except.ok ls =>
    match outputs.auxOutputs with
    | none => Except.ok (ls, m outputs targets, outputs)
    | some auxs =>
      match auxLoop c m outputs.entries targets (computeNumBoxes dc targets)
          0 auxs ls (m outputs targets) with
      | Except.error e => Except.error e
      | Except.ok r => Except.ok (r.1, r.2.1, ⟨outputs.entries, some r.2.2⟩)

/-- The loss-dict fragment one auxiliary layer contributes: the `boxes` and
`confidences` losses of the injected layer under its fresh per-layer
assignment, keyed with the `_<layer index>` suffix. -/
noncomputable def auxLayerFrag (c : Config) (m : Matcher) (lg : Tensor)
    (targets : List Target) (nb : ℝ) (i : ℕ) (a : TDict) : LossMap :=
  let a' := injectLogits lg a
  let idxI := auxLayerIdx m lg targets a
  [("loss_bbox_" ++ Nat.repr i,
      lossBboxVal ((a'.lookup "pred_boxes").getD []) targets idxI nb),
   ("loss_giou_" ++ Nat.repr i,
      lossGiouVal ((a'.lookup "pred_boxes").getD []) targets idxI nb),
   ("loss_conf_" ++ Nat.repr i,
      lossConfVal ((a'.lookup "box_scores").getD []) idxI c.eos_coef)]

/-- The loss dict after the auxiliary loop: every layer's fragment merged in
turn into the primary loss dict. -/
noncomputable def auxMergedLosses (c : Config) (m : Matcher) (lg : Tensor)
    (targets : List Target) (nb : ℝ) (auxs : List TDict) (plm : LossMap) :
    LossMap :=
  auxs.enum.foldl (fun acc p => updKV acc (auxLayerFrag c m lg targets nb p.1 p.2)) plm

/-- The final value of the `indices` variable after the auxiliary loop: the
last layer's fresh assignment when layers exist, else the primary one. -/
def auxFinalIdx (m : Matcher) (lg : Tensor) (targets : List Target)
    (primIdx : Assignment) (auxs : List TDict) : Assignment :=
  auxs.foldl (fun _ a => auxLayerIdx m lg targets a) primIdx

/-! ## Concrete instances used by witnesses and counterexamples -/

/-- A `[1][2][1]` classification-logit tensor. -/
noncomputable def cexLG : Tensor := [[[0], [0]]]

/-- A `[1][2][8]` box tensor. -/
noncomputable def cexPB : Tensor := [[[0, 0, 0, 0, 0, 0, 0, 0], [0, 0, 0, 0, 0, 0, 0, 0]]]

/-- A `[1][2][1]` confidence tensor. -/
noncomputable def cexBS : Tensor := [[[0], [0]]]

/-- An auxiliary-layer dict: boxes and confidences, no classification
logits (the model's auxiliary layers do not emit `logits_per_hoi`). -/
noncomputable def cexAux : TDict := [("pred_boxes", cexPB), ("box_scores", cexBS)]

/-- A Prediction Output with one auxiliary layer. -/
noncomputable def cexOut : Outputs :=
  ⟨[("logits_per_hoi", cexLG), ("pred_boxes", cexPB), ("box_scores", cexBS)],
   some [cexAux]⟩

/-- A Prediction Output with two auxiliary layers. -/
noncomputable def cexOut2 : Outputs :=
  ⟨[("logits_per_hoi", cexLG), ("pred_boxes", cexPB), ("box_scores", cexBS)],
   some [cexAux, cexAux]⟩

/-- A matcher that answers differently on the top-level outputs (which carry
the `aux_outputs` key) and on the bare auxiliary layer dicts. -/
def cexMatcher : Matcher :=
  fun o _ => if o.auxOutputs.isSome then [([0], [0])] else [([1], [0])]

/-- Non-distributed context: world size 1, no-op reduce. -/
def cexDist : DistCtx := ⟨false, fun x => x, 1⟩

/-- Configuration with an empty enabled-loss list (the auxiliary loop runs
regardless of `losses`). -/
noncomputable def cexCfg : Config :=
  { losses := [], eos_coef := 1, enable_focal_loss := false, focal_alpha := 0,
    focal_gamma := 0, consider_all := false, training := true }

/-- Configuration for the training + `consider_all` + non-focal geometry. -/
noncomputable def cexCfg10 : Config :=
  { losses := ["labels"], eos_coef := 1, enable_focal_loss := false,
    focal_alpha := 0, focal_gamma := 0, consider_all := true, training := true }

/-- One target image with one interaction. -/
noncomputable def cexTargets : List Target :=
  [⟨[⟨0, 0, 0⟩], [[0, 0, 0, 0]], []⟩]

/-- A `[1][1][1]` region-logit tensor (one image, 1×1 map). -/
noncomputable def cexRegion : Tensor := [[[1]]]

/-- A dict holding the three region-logit tensors. -/
noncomputable def cexMaskDict : TDict :=
  [("hum_region", cexRegion), ("obj_region", cexRegion), ("uni_region", cexRegion)]

/-- One target image with two interactions over two 1×1 box masks. -/
noncomputable def cexMaskTargets : List Target :=
  [⟨[⟨0, 1, 3⟩, ⟨0, 1, 4⟩], [], [[[0]], [[1]]]⟩]

/-! ### Basic facts about the row primitives -/

theorem numPos_eq_zero_iff {m : ℕ} {t : ℕ → Bool} :
    numPos m t = 0 ↔ ∀ j ∈ Finset.range m, t j = false := by
  unfold numPos
  rw [Finset.card_eq_zero, Finset.filter_eq_empty_iff]
  constructor
  · intro h j hj
    simpa using h hj
  · intro h j hj
    simp [h j hj]

theorem rowArgmax_of_all_false {m : ℕ} {t : ℕ → Bool}
    (h : ∀ j ∈ Finset.range m, t j = false) : rowArgmax m t = 0 := by
  unfold rowArgmax firstTrueIn
  rw [dif_neg]
  rw [Finset.nonempty_iff_ne_empty]
  simp only [ne_eq, not_not]
  rw [Finset.filter_eq_empty_iff]
  intro j hj
  simp [h j hj]

/-- If row `t` has exactly one positive column and `p` is positive, the
argmax resolves to `p`. -/
theorem rowArgmax_of_single {m p : ℕ} {t : ℕ → Bool}
    (hp : p < m) (hpt : t p = true) (h1 : numPos m t = 1) :
    rowArgmax m t = p := by
  have hmem : p ∈ (Finset.range m).filter (fun j => t j = true) := by
    simp [Finset.mem_filter, Finset.mem_range, hp, hpt]
  obtain ⟨a, ha⟩ := Finset.card_eq_one.mp h1
  have hpa : p = a := by
    have := hmem
    rw [ha] at this
    simpa using this
  unfold rowArgmax firstTrueIn
  rw [dif_pos ⟨p, hmem⟩]
  apply le_antisymm
  · exact Finset.min'_le _ p hmem
  · apply Finset.le_min'
    intro y hy
    rw [ha, Finset.mem_singleton] at hy
    omega

/-- If `t j` holds and `j < m` then the masked argmax target is `j` itself:
`j` is the only positive column left in the kept set. -/
theorem maskedTarget_eq_self {m j : ℕ} {t : ℕ → Bool}
    (hj : j < m) (hjt : t j = true) : maskedTarget m t j = j := by
  have hset : (kept m t j).filter (fun k => t k = true) = {j} := by
    ext k
    simp only [kept, Finset.mem_filter, Finset.mem_range, Finset.mem_singleton]
    constructor
    · rintro ⟨⟨hk, hor | hkj⟩, hkt⟩
      · rw [hor] at hkt; exact absurd hkt (by simp)
      · exact hkj
    · rintro rfl
      exact ⟨⟨hj, Or.inr rfl⟩, hjt⟩
  have hjmem : j ∈ (kept m t j).filter (fun k => t k = true) := by
    rw [hset]; exact Finset.mem_singleton_self j
  unfold maskedTarget firstTrueIn
  rw [dif_pos ⟨j, hjmem⟩]
  apply le_antisymm
  · exact Finset.min'_le _ j hjmem
  · apply Finset.le_min'
    intro y hy
    rw [hset, Finset.mem_singleton] at hy
    omega

/-- The kept set is the negative columns together with `j` (for `j < m`). -/
theorem kept_eq_insert_negatives {m j : ℕ} {t : ℕ → Bool} (hj : j < m) :
    kept m t j = insert j ((Finset.range m).filter (fun k => t k = false)) := by
  ext k
  simp only [kept, Finset.mem_filter, Finset.mem_range, Finset.mem_insert]
  constructor
  · rintro ⟨hk, hor | hkj⟩
    · exact Or.inr ⟨hk, hor⟩
    · exact Or.inl hkj
  · rintro (rfl | ⟨hk, hneg⟩)
    · exact ⟨hj, Or.inr rfl⟩
    · exact ⟨hk, Or.inl hneg⟩

end Criterion

namespace Criterion

/-- **C2.** For targets in which every row has at least one positive column,
`masked_out_cross_entropy` equals: the summed standard cross-entropy of the
single-positive rows (row target = the positive column), plus, for each row
with two or more positives, the sum over its positive columns `j` of the
cross-entropy of the row restricted to the negative columns plus `j` with
target `j` (its position within the kept set), divided by that row's
positive-column count; the grand total divided by the number of target
rows. -/
theorem mce_multi_positive_decomposition (n m : ℕ) (L : ℕ → ℕ → ℝ)
    (T : ℕ → ℕ → Bool) (p : ℕ → ℕ)
    (hpos : ∀ i, i < n → 1 ≤ numPos m (T i))
    (hp : ∀ i, i < n → numPos m (T i) = 1 → p i < m ∧ T i (p i) = true) :
    masked_out_cross_entropy n m L T =
      ((∑ i ∈ (Finset.range n).filter (fun i => numPos m (T i) = 1),
          ce m (L i) (p i))
       + ∑ i ∈ (Finset.range n).filter (fun i => 2 ≤ numPos m (T i)),
          (∑ j ∈ (Finset.range m).filter (fun j => T i j = true),
              ceOn (insert j ((Finset.range m).filter (fun k => T i k = false)))
                (L i) j)
            / (numPos m (T i) : ℝ)) / (n : ℝ) := by
  unfold masked_out_cross_entropy
  have hfilter : (Finset.range n).filter (fun i => numPos m (T i) < 2)
      = (Finset.range n).filter (fun i => numPos m (T i) = 1) := by
    apply Finset.filter_congr
    intro i hi
    have := hpos i (Finset.mem_range.mp hi)
    omega
  congr 1
  congr 1
  · rw [hfilter]
    apply Finset.sum_congr rfl
    intro i hi
    rw [Finset.mem_filter, Finset.mem_range] at hi
    rw [rowArgmax_of_single (hp i hi.1 hi.2).1 (hp i hi.1 hi.2).2 hi.2]
  · apply Finset.sum_congr
    · apply Finset.filter_congr
      intro i _
      omega
    · intro i _
      congr 1
      apply Finset.sum_congr rfl
      intro j hj
      rw [Finset.mem_filter, Finset.mem_range] at hj
      rw [maskedTarget_eq_self hj.1 hj.2, kept_eq_insert_negatives hj.1]

theorem mce_multi_positive_decomposition_witness :
    (∀ i, i < 2 → 1 ≤ numPos 2 (exT i)) ∧
    masked_out_cross_entropy 2 2 exL exT =
      ((∑ i ∈ (Finset.range 2).filter (fun i => numPos 2 (exT i) = 1),
          ce 2 (exL i) 0)
       + ∑ i ∈ (Finset.range 2).filter (fun i => 2 ≤ numPos 2 (exT i)),
          (∑ j ∈ (Finset.range 2).filter (fun j => exT i j = true),
              ceOn (insert j ((Finset.range 2).filter (fun k => exT i k = false)))
                (exL i) j)
            / (numPos 2 (exT i) : ℝ)) / ((2 : ℕ) : ℝ) :=
  ⟨by decide,
   mce_multi_positive_decomposition 2 2 exL exT (fun _ => 0) (by decide) (by decide)⟩

/-- **C3.** On a target matrix in which every row has exactly one positive
column, `masked_out_cross_entropy` equals plain mean-reduced multi-class
cross-entropy of the logit rows against the positive column indices. -/
theorem mce_single_positive_eq_plain_ce (n m : ℕ) (L : ℕ → ℕ → ℝ)
    (T : ℕ → ℕ → Bool) (p : ℕ → ℕ)
    (hp : ∀ i, i < n → p i < m ∧ T i (p i) = true)
    (h1 : ∀ i, i < n → numPos m (T i) = 1) :
    masked_out_cross_entropy n m L T = meanCrossEntropy n m L p := by
  unfold masked_out_cross_entropy meanCrossEntropy
  have hfull : (Finset.range n).filter (fun i => numPos m (T i) < 2)
      = Finset.range n := by
    apply Finset.filter_true_of_mem
    intro i hi
    have := h1 i (Finset.mem_range.mp hi)
    omega
  have hempty : (Finset.range n).filter (fun i => 1 < numPos m (T i)) = ∅ := by
    rw [Finset.filter_eq_empty_iff]
    intro i hi
    have := h1 i (Finset.mem_range.mp hi)
    omega
  rw [hfull, hempty, Finset.sum_empty, add_zero]
  congr 1
  apply Finset.sum_congr rfl
  intro i hi
  have hi' := Finset.mem_range.mp hi
  rw [rowArgmax_of_single (hp i hi').1 (hp i hi').2 (h1 i hi')]

theorem mce_single_positive_eq_plain_ce_witness :
    (∀ i, i < 2 → numPos 2 (exTsingle i) = 1) ∧
    masked_out_cross_entropy 2 2 exL exTsingle =
      meanCrossEntropy 2 2 exL (fun i => i) :=
  ⟨by decide,
   mce_single_positive_eq_plain_ce 2 2 exL exTsingle (fun i => i)
     (by decide) (by decide)⟩

/-- **C9.** A transposed target row with zero positive columns is not
skipped: it lands in the `num_pos < 2` branch, its argmax over the all-zero
indicator resolves to column `0`, and it contributes an ordinary
cross-entropy term toward column `0` to the total. -/
theorem mce_zero_positive_row (n m r : ℕ) (L : ℕ → ℕ → ℝ) (T : ℕ → ℕ → Bool)
    (hr : r < n) (hz : numPos m (T r) = 0) :
    r ∈ (Finset.range n).filter (fun i => numPos m (T i) < 2) ∧
    rowArgmax m (T r) = 0 ∧
    masked_out_cross_entropy n m L T =
      (ce m (L r) 0
       + ((∑ i ∈ ((Finset.range n).filter (fun i => numPos m (T i) < 2)).erase r,
            ce m (L i) (rowArgmax m (T i)))
          + ∑ i ∈ (Finset.range n).filter (fun i => 1 < numPos m (T i)),
             (∑ j ∈ (Finset.range m).filter (fun j => T i j = true),
                ceOn (kept m (T i) j) (L i) (maskedTarget m (T i) j))
               / (numPos m (T i) : ℝ))) / (n : ℝ) := by
  have hmem : r ∈ (Finset.range n).filter (fun i => numPos m (T i) < 2) := by
    rw [Finset.mem_filter, Finset.mem_range]
    exact ⟨hr, by omega⟩
  have harg : rowArgmax m (T r) = 0 :=
    rowArgmax_of_all_false (numPos_eq_zero_iff.mp hz)
  refine ⟨hmem, harg, ?_⟩
  unfold masked_out_cross_entropy
  rw [← Finset.add_sum_erase _ (fun i => ce m (L i) (rowArgmax m (T i))) hmem]
  rw [harg, add_assoc]

theorem mce_zero_positive_row_witness :
    numPos 1 (exTzero 0) = 0 ∧
    (0 ∈ (Finset.range 1).filter (fun i => numPos 1 (exTzero i) < 2) ∧
     rowArgmax 1 (exTzero 0) = 0 ∧
     masked_out_cross_entropy 1 1 exL exTzero =
       (ce 1 (exL 0) 0
        + ((∑ i ∈ ((Finset.range 1).filter
              (fun i => numPos 1 (exTzero i) < 2)).erase 0,
             ce 1 (exL i) (rowArgmax 1 (exTzero i)))
           + ∑ i ∈ (Finset.range 1).filter (fun i => 1 < numPos 1 (exTzero i)),
              (∑ j ∈ (Finset.range 1).filter (fun j => exTzero i j = true),
                 ceOn (kept 1 (exTzero i) j) (exL i) (maskedTarget 1 (exTzero i) j))
                / (numPos 1 (exTzero i) : ℝ))) / ((1 : ℕ) : ℝ)) :=
  ⟨by decide, mce_zero_positive_row 1 1 0 exL exTzero (by decide) (by decide)⟩

/-! ### Association-list (Python dict) lemmas -/

theorem lookup_insKV_self {β : Type} (d : List (String × β)) (k : String) (v : β) :
    (insKV d k v).lookup k = some v := by
  induction d with
  | nil => simp [insKV, List.lookup]
  | cons p rest ih =>
    by_cases h : p.1 = k
    · simp [insKV, h, List.lookup]
    · have hb : (k == p.1) = false := by
        rw [beq_eq_false_iff_ne]
        exact fun e => h e.symm
      simp [insKV, if_neg h, List.lookup, hb, ih]

theorem lookup_insKV_ne {β : Type} (d : List (String × β)) (k k' : String) (v : β)
    (h : k' ≠ k) : (insKV d k v).lookup k' = d.lookup k' := by
  have hb : (k' == k) = false := by
    rw [beq_eq_false_iff_ne]
    exact h
  induction d with
  | nil => simp [insKV, List.lookup, hb]
  | cons p rest ih =>
    by_cases hp : p.1 = k
    · simp [insKV, if_pos hp, List.lookup, hb, hp]
    · by_cases hpk : k' = p.1
      · have hb2 : (k' == p.1) = true := by
          rw [beq_iff_eq]
          exact hpk
        simp [insKV, if_neg hp, List.lookup, hb2]
      · have hb2 : (k' == p.1) = false := by
          rw [beq_eq_false_iff_ne]
          exact hpk
        simp [insKV, if_neg hp, List.lookup, hb2, ih]

theorem updKV_append {β : Type} (d l₁ l₂ : List (String × β)) :
    updKV d (l₁ ++ l₂) = updKV (updKV d l₁) l₂ := by
  unfold updKV
  exact List.foldl_append _ _ _ _

/-! ### Permutation Indexer lemmas and claim C8 -/

theorem zip_replicate_map {α : Type} (f : ℕ → ℕ → α) (k : ℕ) (s : List ℕ) :
    ((List.replicate s.length k).zip s).map (fun q => f q.1 q.2) = s.map (f k) := by
  induction s with
  | nil => rfl
  | cons a t ih => simpa [List.replicate_succ] using ih

theorem gather_enumFrom {α : Type} (f : ℕ → ℕ → α) :
    ∀ (ind : Assignment) (k : ℕ),
    ((((List.enumFrom k ind).map (fun p => List.replicate p.2.1.length p.1)).join).zip
        ((ind.map (fun p => p.1)).join)).map (fun q => f q.1 q.2)
      = ((List.enumFrom k ind).map (fun p => p.2.1.map (f p.1))).join := by
  intro ind
  induction ind with
  | nil => intro k; rfl
  | cons hd tl ih =>
    intro k
    simp only [List.enumFrom, List.map_cons, List.join_cons]
    rw [List.zip_append (by simp), List.map_append, zip_replicate_map, ih (k + 1)]

/-- **C8, counterexample.** The Permutation Indexer does have a failure
mode: on the empty (zero-image) assignment, `torch.cat` at line 233 receives
an empty list of tensors and raises, so the empty assignment does not yield
empty index tensors. -/
theorem torch_cat_empty_assignment_cex :
    getSrcPermutationIdxE ([] : Assignment)
      = Except.error "RuntimeError: torch.cat expected a non-empty list of Tensors" ∧
    getSrcPermutationIdxE ([] : Assignment) ≠ Except.ok ([], []) :=
  ⟨rfl, fun hcontra => Except.noConfusion hcontra⟩

/-- **C8, amended.** On every nonempty Assignment (one pair per image — the
matcher contract, so the zero-image input does not arise in use),
`_get_src_permutation_idx` returns without failure two parallel flat index
tensors whose common length equals the sum of the per-image matched-slot
counts, and advanced indexing of any `[batch][slot]`-indexed family at
`(batch_index, slot_index)` returns exactly the matched rows in assignment
order; an assignment whose per-image match pairs are all empty yields empty
index tensors.  Only the zero-image (empty-list) assignment fails, by the
`torch.cat` raise. -/
theorem get_src_permutation_idx_amended {α : Type} (indices : Assignment)
    (f : ℕ → ℕ → α) (h : indices ≠ []) :
    getSrcPermutationIdxE indices = Except.ok (getSrcPermutationIdx indices) ∧
    (getSrcPermutationIdx indices).1.length = (getSrcPermutationIdx indices).2.length ∧
    (getSrcPermutationIdx indices).2.length
      = (indices.map (fun p => p.1.length)).sum ∧
    getSrcPermutationIdxE [(([] : List ℕ), ([] : List ℕ))] = Except.ok ([], []) ∧
    (matchedPairs indices).map (fun q => f q.1 q.2)
      = (indices.enum.map (fun p => p.2.1.map (f p.1))).join := by
  have hbridge : getSrcPermutationIdxE indices
      = Except.ok (getSrcPermutationIdx indices) := by
    cases indices with
    | nil => exact absurd rfl h
    | cons hd tl => rfl
  have hlen2 : (getSrcPermutationIdx indices).2.length
      = (indices.map (fun p => p.1.length)).sum := by
    simp [getSrcPermutationIdx, List.length_join, Function.comp_def, List.map_map]
  refine ⟨hbridge, ?_, hlen2, rfl, gather_enumFrom f indices 0⟩
  rw [hlen2]
  simp only [getSrcPermutationIdx, List.length_join, List.map_map]
  have h1 : (List.length ∘ fun p : ℕ × (List ℕ × List ℕ) =>
        List.replicate p.2.1.length p.1)
      = (fun q : List ℕ × List ℕ => q.1.length) ∘ Prod.snd := by
    funext p
    simp [Function.comp]
  rw [h1, ← List.map_map, List.enum_map_snd]

theorem get_src_permutation_idx_amended_witness :
    (([([0, 2], [0, 1])] : Assignment) ≠ []) ∧
    (getSrcPermutationIdxE [([0, 2], [0, 1])]
        = Except.ok (getSrcPermutationIdx [([0, 2], [0, 1])]) ∧
      (getSrcPermutationIdx [([0, 2], [0, 1])]).1.length
        = (getSrcPermutationIdx [([0, 2], [0, 1])]).2.length ∧
      (getSrcPermutationIdx [([0, 2], [0, 1])]).2.length
        = (([([0, 2], [0, 1])] : Assignment).map (fun p => p.1.length)).sum ∧
      getSrcPermutationIdxE [(([] : List ℕ), ([] : List ℕ))] = Except.ok ([], []) ∧
      (matchedPairs [([0, 2], [0, 1])]).map (fun q => (q.1, q.2))
        = (([([0, 2], [0, 1])] : Assignment).enum.map
            (fun p => p.2.1.map (fun s => (p.1, s)))).join) :=
  ⟨by decide,
   get_src_permutation_idx_amended [([0, 2], [0, 1])] (fun b s => (b, s)) (by decide)⟩

/-! ### Orchestrator lemmas -/

theorem get_loss_boxes (c : Config) (ld : TDict) (targets : List Target)
    (indices : Assignment) (nb : ℝ) :
    get_loss c "boxes" ld targets indices nb = loss_boxes ld targets indices nb := rfl

theorem get_loss_confidences (c : Config) (ld : TDict) (targets : List Target)
    (indices : Assignment) (nb : ℝ) :
    get_loss c "confidences" ld targets indices nb
      = loss_confidences c ld targets indices := rfl

theorem lookup_injectLogits_ne (lg : Tensor) (a : TDict) (k : String)
    (h : k ≠ "logits_per_hoi") :
    (injectLogits lg a).lookup k = a.lookup k :=
  lookup_insKV_ne a "logits_per_hoi" k lg h

/-- One auxiliary-layer step: with the required keys present, the `boxes`
and `confidences` losses of the injected layer are exactly the layer's
fragment (before suffixing). -/
theorem aux_layer_losses (c : Config) (m : Matcher) (lg : Tensor)
    (targets : List Target) (nb : ℝ) (a : TDict) (pb bs : Tensor)
    (hpb : a.lookup "pred_boxes" = some pb)
    (hbs : a.lookup "box_scores" = some bs) :
    get_loss c "boxes" (injectLogits lg a) targets
        (m ⟨injectLogits lg a, none⟩ targets) nb
      = Except.ok [("loss_bbox", lossBboxVal pb targets (auxLayerIdx m lg targets a) nb),
          ("loss_giou", lossGiouVal pb targets (auxLayerIdx m lg targets a) nb)] ∧
    get_loss c "confidences" (injectLogits lg a) targets
        (m ⟨injectLogits lg a, none⟩ targets) nb
      = Except.ok [("loss_conf", lossConfVal bs (auxLayerIdx m lg targets a) c.eos_coef)] := by
  have hpb' : (injectLogits lg a).lookup "pred_boxes" = some pb := by
    rw [lookup_injectLogits_ne lg a _ (by decide)]
    exact hpb
  have hbs' : (injectLogits lg a).lookup "box_scores" = some bs := by
    rw [lookup_injectLogits_ne lg a _ (by decide)]
    exact hbs
  constructor
  · rw [get_loss_boxes]
    unfold loss_boxes
    rw [hpb']
    rfl
  · rw [get_loss_confidences]
    unfold loss_confidences
    rw [hbs']
    rfl

/-- Closed form of the auxiliary-layer loop. -/
theorem auxLoop_spec (c : Config) (m : Matcher) (ents : TDict)
    (targets : List Target) (nb : ℝ) (lg : Tensor)
    (hlg : ents.lookup "logits_per_hoi" = some lg) :
    ∀ (auxs : List TDict),
    (∀ a ∈ auxs, (a.lookup "pred_boxes").isSome = true
      ∧ (a.lookup "box_scores").isSome = true) →
    ∀ (i : ℕ) (ls : LossMap) (idx : Assignment),
    auxLoop c m ents targets nb i auxs ls idx =
      Except.ok
        ((List.enumFrom i auxs).foldl
          (fun acc p => updKV acc (auxLayerFrag c m lg targets nb p.1 p.2)) ls,
         auxs.foldl (fun _ a => auxLayerIdx m lg targets a) idx,
         auxs.map (injectLogits lg)) := by
  intro auxs
  induction auxs with
  | nil =>
    intro _ i ls idx
    rfl
  | cons a rest ih =>
    intro hk i ls idx
    obtain ⟨hpbs, hbss⟩ := hk a (List.mem_cons_self a rest)
    obtain ⟨pb, hpb⟩ := Option.isSome_iff_exists.mp hpbs
    obtain ⟨bs, hbs⟩ := Option.isSome_iff_exists.mp hbss
    obtain ⟨hb1, hb2⟩ := aux_layer_losses c m lg targets nb a pb bs hpb hbs
    have hrest : ∀ x ∈ rest, ((x.lookup "pred_boxes").isSome = true
        ∧ (x.lookup "box_scores").isSome = true) :=
      fun x hx => hk x (List.mem_cons_of_mem a hx)
    show (match ents.lookup "logits_per_hoi" with
      | none => Except.error "KeyError: logits_per_hoi"
      | some lg => _) = _
    rw [hlg]
    simp only
    rw [hb1]
    simp only
    rw [hb2]
    simp only
    rw [ih hrest (i + 1)
      (updKV (updKV ls ([("loss_bbox", lossBboxVal pb targets (auxLayerIdx m lg targets a) nb),
          ("loss_giou", lossGiouVal pb targets (auxLayerIdx m lg targets a) nb)].map
            (fun p => (p.1 ++ "_" ++ Nat.repr i, p.2))))
        ([("loss_conf", lossConfVal bs (auxLayerIdx m lg targets a) c.eos_coef)].map
            (fun p => (p.1 ++ "_" ++ Nat.repr i, p.2))))
      (m ⟨injectLogits lg a, none⟩ targets)]
    simp only [List.enumFrom, List.foldl_cons, List.map_cons]
    congr 2
    rw [← updKV_append]
    congr 1
    simp only [List.map_cons, List.map_nil, List.cons_append, List.nil_append]
    unfold auxLayerFrag
    simp only
    rw [lookup_injectLogits_ne lg a "pred_boxes" (by decide),
      lookup_injectLogits_ne lg a "box_scores" (by decide), hpb, hbs]
    rfl

/-- Closed form of `forward` in the presence of auxiliary outputs. -/
theorem forward_spec (c : Config) (m : Matcher) (dc : DistCtx) (o : Outputs)
    (targets : List Target) (auxs : List TDict) (lg : Tensor) (plm : LossMap)
    (haux : o.auxOutputs = some auxs)
    (hlg : o.entries.lookup "logits_per_hoi" = some lg)
    (hkeys : ∀ a ∈ auxs, (a.lookup "pred_boxes").isSome = true
      ∧ (a.lookup "box_scores").isSome = true)
    (hprim : primaryLosses c o.entries targets (m o targets)
        (computeNumBoxes dc targets) = Except.ok plm) :
    forward c m dc o targets = Except.ok
      (auxMergedLosses c m lg targets (computeNumBoxes dc targets) auxs plm,
       auxFinalIdx m lg targets (m o targets) auxs,
       ⟨o.entries, some (auxs.map (injectLogits lg))⟩) := by
  unfold forward
  rw [hprim]
  simp only
  rw [haux]
  simp only
  rw [auxLoop_spec c m o.entries targets (computeNumBoxes dc targets) lg hlg
    auxs hkeys 0 plm (m o targets)]
  rfl

theorem foldl_const_last {α β : Type} (g : α → β) :
    ∀ (l : List α) (h : l ≠ []) (init : β),
    l.foldl (fun _ a => g a) init = g (l.getLast h) := by
  intro l
  induction l with
  | nil => intro h; exact absurd rfl h
  | cons a rest ih =>
    intro h init
    cases rest with
    | nil => rfl
    | cons b t =>
      rw [List.foldl_cons, ih (List.cons_ne_nil b t) (g a),
        List.getLast_cons (List.cons_ne_nil b t)]

/-! ### String-key disequalities for the suffixed auxiliary loss keys -/

theorem ce_key_ne_bbox (r s : String) : "loss_ce_" ++ r ≠ "loss_bbox_" ++ s := by
  intro h
  have hd := congrArg String.data h
  rw [String.data_append, String.data_append] at hd
  have h5 := congrArg (fun l => l[5]?) hd
  simp only [show "loss_ce_".data = ['l', 'o', 's', 's', '_', 'c', 'e', '_'] from rfl,
    show "loss_bbox_".data = ['l', 'o', 's', 's', '_', 'b', 'b', 'o', 'x', '_'] from rfl]
    at h5
  simp at h5

theorem ce_key_ne_giou (r s : String) : "loss_ce_" ++ r ≠ "loss_giou_" ++ s := by
  intro h
  have hd := congrArg String.data h
  rw [String.data_append, String.data_append] at hd
  have h5 := congrArg (fun l => l[5]?) hd
  simp only [show "loss_ce_".data = ['l', 'o', 's', 's', '_', 'c', 'e', '_'] from rfl,
    show "loss_giou_".data = ['l', 'o', 's', 's', '_', 'g', 'i', 'o', 'u', '_'] from rfl]
    at h5
  simp at h5

theorem ce_key_ne_conf (r s : String) : "loss_ce_" ++ r ≠ "loss_conf_" ++ s := by
  intro h
  have hd := congrArg String.data h
  rw [String.data_append, String.data_append] at hd
  have h6 := congrArg (fun l => l[6]?) hd
  simp only [show "loss_ce_".data = ['l', 'o', 's', 's', '_', 'c', 'e', '_'] from rfl,
    show "loss_conf_".data = ['l', 'o', 's', 's', '_', 'c', 'o', 'n', 'f', '_'] from rfl]
    at h6
  simp at h6

theorem ce_key_not_in_frag (c : Config) (m : Matcher) (lg : Tensor)
    (targets : List Target) (nb : ℝ) (i : ℕ) (a : TDict) (r : String) (v : ℝ) :
    ("loss_ce_" ++ r, v) ∉ auxLayerFrag c m lg targets nb i a := by
  intro hmem
  unfold auxLayerFrag at hmem
  simp only [List.mem_cons, List.mem_singleton, List.not_mem_nil, or_false,
    Prod.mk.injEq] at hmem
  rcases hmem with ⟨h, _⟩ | ⟨h, _⟩ | ⟨h, _⟩
  · exact ce_key_ne_bbox r (Nat.repr i) h
  · exact ce_key_ne_giou r (Nat.repr i) h
  · exact ce_key_ne_conf r (Nat.repr i) h

/-! ### Claim C1 (corrected): the returned assignment -/

/-- **C1, counterexample.** With `aux_outputs` present, `forward` does not
return the primary assignment: the loop variable `indices` is overwritten,
so the returned assignment is the auxiliary layer's one.  Here the matcher
answers `[([0],[0])]` on the top-level outputs and `[([1],[0])]` on the bare
auxiliary layer dict. -/
theorem forward_returns_aux_assignment_cex :
    (forward cexCfg cexMatcher cexDist cexOut cexTargets).map (fun r => r.2.1)
      = Except.ok [([1], [0])] ∧
    cexMatcher cexOut cexTargets = [([0], [0])] ∧
    ([([1], [0])] : Assignment) ≠ [([0], [0])] :=
  ⟨rfl, rfl, by decide⟩

/-- **C1, amended.** When `aux_outputs` is present (and the per-layer loss
computations succeed), the Assignment returned by `forward` is the final
value of the loop variable: the fresh assignment of the *last* auxiliary
layer when layers exist, and the primary assignment only when the layer
sequence is empty. -/
theorem forward_assignment_amended (c : Config) (m : Matcher) (dc : DistCtx)
    (o : Outputs) (targets : List Target) (auxs : List TDict) (lg : Tensor)
    (plm : LossMap)
    (haux : o.auxOutputs = some auxs)
    (hlg : o.entries.lookup "logits_per_hoi" = some lg)
    (hkeys : ∀ a ∈ auxs, (a.lookup "pred_boxes").isSome = true
      ∧ (a.lookup "box_scores").isSome = true)
    (hprim : primaryLosses c o.entries targets (m o targets)
        (computeNumBoxes dc targets) = Except.ok plm) :
    (forward c m dc o targets).map (fun r => r.2.1)
      = Except.ok (auxFinalIdx m lg targets (m o targets) auxs) ∧
    ∀ h : auxs ≠ [],
      auxFinalIdx m lg targets (m o targets) auxs
        = auxLayerIdx m lg targets (auxs.getLast h) := by
  constructor
  · rw [forward_spec c m dc o targets auxs lg plm haux hlg hkeys hprim]
    rfl
  · intro h
    exact foldl_const_last (auxLayerIdx m lg targets) auxs h (m o targets)

theorem forward_assignment_amended_witness :
    (forward cexCfg cexMatcher cexDist cexOut cexTargets).map (fun r => r.2.1)
      = Except.ok (auxFinalIdx cexMatcher cexLG cexTargets
          (cexMatcher cexOut cexTargets) [cexAux]) ∧
    ∀ h : ([cexAux] : List TDict) ≠ [],
      auxFinalIdx cexMatcher cexLG cexTargets (cexMatcher cexOut cexTargets) [cexAux]
        = auxLayerIdx cexMatcher cexLG cexTargets (([cexAux] : List TDict).getLast h) :=
  forward_assignment_amended cexCfg cexMatcher cexDist cexOut cexTargets
    [cexAux] cexLG [] rfl rfl
    (by
      intro a ha
      rcases List.mem_cons.mp ha with rfl | h2
      · exact ⟨rfl, rfl⟩
      · exact absurd h2 (List.not_mem_nil a))
    rfl

/-! ### Claim C4 (corrected): mutation of the Prediction Output -/

/-- **C4, counterexample.** `forward` mutates the Prediction Output: the
auxiliary layer dict, which had no `logits_per_hoi` key before the call,
carries one afterwards (`aux_outputs.update(...)` is in-place), so the
post-call outputs differ from the pre-call outputs. -/
theorem forward_mutates_aux_cex :
    (forward cexCfg cexMatcher cexDist cexOut cexTargets).map
        (fun r => r.2.2.auxOutputs.map (fun ls => ls.map (fun d => d.map Prod.fst)))
      = Except.ok (some [["pred_boxes", "box_scores", "logits_per_hoi"]]) ∧
    cexOut.auxOutputs.map (fun ls => ls.map (fun d => d.map Prod.fst))
      = some [["pred_boxes", "box_scores"]] ∧
    (forward cexCfg cexMatcher cexDist cexOut cexTargets).map (fun r => r.2.2)
      ≠ Except.ok cexOut := by
  refine ⟨rfl, rfl, ?_⟩
  intro h
  have h2 : (Except.ok cexOut : Except String Outputs).map
        (fun o => o.auxOutputs.map (fun ls => ls.map (fun d => d.map Prod.fst)))
      = Except.ok (some [["pred_boxes", "box_scores", "logits_per_hoi"]]) := by
    rw [← h]
    rfl
  have h3 : (some [["pred_boxes", "box_scores"]] : Option (List (List String)))
      = some [["pred_boxes", "box_scores", "logits_per_hoi"]] :=
    Except.ok.inj h2
  exact absurd h3 (by decide)

/-- **C4, amended.** `forward` leaves the top-level entries unchanged, but
each auxiliary layer dict is returned updated in place with the primary
`logits_per_hoi`; being a pure function of its inputs in this embedding,
repeated invocation with equal inputs trivially yields equal results. -/
theorem forward_outputs_amended (c : Config) (m : Matcher) (dc : DistCtx)
    (o : Outputs) (targets : List Target) (auxs : List TDict) (lg : Tensor)
    (plm : LossMap)
    (haux : o.auxOutputs = some auxs)
    (hlg : o.entries.lookup "logits_per_hoi" = some lg)
    (hkeys : ∀ a ∈ auxs, (a.lookup "pred_boxes").isSome = true
      ∧ (a.lookup "box_scores").isSome = true)
    (hprim : primaryLosses c o.entries targets (m o targets)
        (computeNumBoxes dc targets) = Except.ok plm) :
    (forward c m dc o targets).map (fun r => r.2.2)
      = Except.ok (⟨o.entries, some (auxs.map (injectLogits lg))⟩ : Outputs) := by
  rw [forward_spec c m dc o targets auxs lg plm haux hlg hkeys hprim]
  rfl

theorem forward_outputs_amended_witness :
    (forward cexCfg cexMatcher cexDist cexOut cexTargets).map (fun r => r.2.2)
      = Except.ok (⟨cexOut.entries,
          some (([cexAux] : List TDict).map (injectLogits cexLG))⟩ : Outputs) :=
  forward_outputs_amended cexCfg cexMatcher cexDist cexOut cexTargets
    [cexAux] cexLG [] rfl rfl
    (by
      intro a ha
      rcases List.mem_cons.mp ha with rfl | h2
      · exact ⟨rfl, rfl⟩
      · exact absurd h2 (List.not_mem_nil a))
    rfl

/-! ### Claim C5 (confirmed): the normalizer -/

/-- **C5.** The normalizer `forward` computes equals the batch's total
ground-truth interaction count, all-reduced when distributed, divided by the
world size and clamped to a minimum of 1; it is always at least 1 (so never
a division by zero), and for a batch with zero annotated interactions in a
non-distributed run (world size 1) it is exactly 1. -/
theorem num_boxes_normalizer (dc : DistCtx) (targets : List Target) :
    computeNumBoxes dc targets
      = max ((if dc.isDist then dc.allReduce ((localNumBoxes targets : ℝ))
            else ((localNumBoxes targets : ℝ))) / (dc.worldSize : ℝ)) 1 ∧
    1 ≤ computeNumBoxes dc targets ∧
    (dc.isDist = false → dc.worldSize = 1 → localNumBoxes targets = 0 →
      computeNumBoxes dc targets = 1) := by
  refine ⟨rfl, le_max_right _ _, ?_⟩
  intro h1 h2 h3
  unfold computeNumBoxes
  rw [h1, h2, h3]
  norm_num

theorem num_boxes_normalizer_witness :
    computeNumBoxes cexDist ([] : List Target) = 1 :=
  (num_boxes_normalizer cexDist []).2.2 rfl rfl rfl

/-! ### Claim C6 (confirmed): the auxiliary-layer loss replication -/

/-- **C6.** With `aux_outputs` present, `forward` walks the auxiliary layers
in order; for each layer it injects the primary `logits_per_hoi`, re-invokes
the matcher on the injected layer to obtain a fresh per-layer assignment,
computes only the `boxes` and `confidences` losses there, and merges exactly
the keys `loss_bbox_<i>`, `loss_giou_<i>`, `loss_conf_<i>` for layer `i`;
no `loss_ce_<anything>` key is ever contributed by an auxiliary layer. -/
theorem forward_aux_loss_keys (c : Config) (m : Matcher) (dc : DistCtx)
    (o : Outputs) (targets : List Target) (auxs : List TDict) (lg : Tensor)
    (plm : LossMap)
    (haux : o.auxOutputs = some auxs)
    (hlg : o.entries.lookup "logits_per_hoi" = some lg)
    (hkeys : ∀ a ∈ auxs, (a.lookup "pred_boxes").isSome = true
      ∧ (a.lookup "box_scores").isSome = true)
    (hprim : primaryLosses c o.entries targets (m o targets)
        (computeNumBoxes dc targets) = Except.ok plm) :
    forward c m dc o targets = Except.ok
      (auxMergedLosses c m lg targets (computeNumBoxes dc targets) auxs plm,
       auxFinalIdx m lg targets (m o targets) auxs,
       ⟨o.entries, some (auxs.map (injectLogits lg))⟩) ∧
    (∀ (i : ℕ) (a : TDict),
      (auxLayerFrag c m lg targets (computeNumBoxes dc targets) i a).map Prod.fst
        = ["loss_bbox_" ++ Nat.repr i, "loss_giou_" ++ Nat.repr i,
           "loss_conf_" ++ Nat.repr i]) ∧
    (∀ (i : ℕ) (a : TDict) (r : String) (v : ℝ),
      ("loss_ce_" ++ r, v) ∉ auxLayerFrag c m lg targets (computeNumBoxes dc targets) i a) :=
  ⟨forward_spec c m dc o targets auxs lg plm haux hlg hkeys hprim,
   fun _ _ => rfl,
   fun i a r v => ce_key_not_in_frag c m lg targets (computeNumBoxes dc targets) i a r v⟩

theorem forward_aux_loss_keys_witness :
    forward cexCfg cexMatcher cexDist cexOut2 cexTargets = Except.ok
      (auxMergedLosses cexCfg cexMatcher cexLG cexTargets
        (computeNumBoxes cexDist cexTargets) [cexAux, cexAux] [],
       auxFinalIdx cexMatcher cexLG cexTargets
        (cexMatcher cexOut2 cexTargets) [cexAux, cexAux],
       ⟨cexOut2.entries, some (([cexAux, cexAux] : List TDict).map (injectLogits cexLG))⟩) ∧
    (∀ (i : ℕ) (a : TDict),
      (auxLayerFrag cexCfg cexMatcher cexLG cexTargets
          (computeNumBoxes cexDist cexTargets) i a).map Prod.fst
        = ["loss_bbox_" ++ Nat.repr i, "loss_giou_" ++ Nat.repr i,
           "loss_conf_" ++ Nat.repr i]) ∧
    (∀ (i : ℕ) (a : TDict) (r : String) (v : ℝ),
      ("loss_ce_" ++ r, v) ∉ auxLayerFrag cexCfg cexMatcher cexLG cexTargets
        (computeNumBoxes cexDist cexTargets) i a) :=
  forward_aux_loss_keys cexCfg cexMatcher cexDist cexOut2 cexTargets
    [cexAux, cexAux] cexLG [] rfl rfl
    (by
      intro a ha
      rcases List.mem_cons.mp ha with rfl | h2
      · exact ⟨rfl, rfl⟩
      · rcases List.mem_cons.mp h2 with rfl | h3
        · exact ⟨rfl, rfl⟩
        · exact absurd h3 (List.not_mem_nil a))
    rfl

/-! ### Claim C7 (corrected): the region-mask loss -/

/-- **C7, counterexample.** The gathered region logits are not per-slot: the
criterion indexes the region tensors with the batch indices only (and the
model emits one region map per image), so changing the matched slot indices
of the assignment leaves the region-mask loss unchanged. -/
theorem loss_masks_slot_independent_cex :
    loss_masks cexMaskDict cexMaskTargets [([0, 1], [0, 1])]
      = loss_masks cexMaskDict cexMaskTargets [([5, 7], [0, 1])] ∧
    ([([0, 1], [0, 1])] : Assignment) ≠ [([5, 7], [0, 1])] :=
  ⟨rfl, by decide⟩

/-- **C7, amended.** The region-mask loss gathers, for each matched
prediction, the image-level region logits of that prediction's image (batch
index only); builds the human and object target masks by dereferencing the
matched interaction's subject/object id into `mask_region_hw`; takes the
union target as the elementwise maximum of the two; and returns the three
mean BCE-with-logits terms under the keys `loss_hum_mask`, `loss_obj_mask`,
`loss_uni_mask`. -/
theorem loss_masks_amended (ld : TDict) (targets : List Target)
    (indices : Assignment) (hr objr ur : Tensor)
    (h1 : ld.lookup "hum_region" = some hr)
    (h2 : ld.lookup "obj_region" = some objr)
    (h3 : ld.lookup "uni_region" = some ur) :
    loss_masks ld targets indices = Except.ok
      [("loss_hum_mask", bceMeanMasks (gatherByBatch hr indices)
          (targetMasks (fun h => h.subject_id) targets indices)),
       ("loss_obj_mask", bceMeanMasks (gatherByBatch objr indices)
          (targetMasks (fun h => h.object_id) targets indices)),
       ("loss_uni_mask", bceMeanMasks (gatherByBatch ur indices)
          (unionMasks (targetMasks (fun h => h.subject_id) targets indices)
            (targetMasks (fun h => h.object_id) targets indices)))] ∧
    ∀ (t : Tensor), gatherByBatch t indices
      = (getSrcPermutationIdx indices).1.map (fun b => t.getD b []) := by
  refine ⟨?_, fun t => rfl⟩
  unfold loss_masks
  rw [h1, h2, h3]

theorem loss_masks_amended_witness :
    loss_masks cexMaskDict cexMaskTargets [([0, 1], [0, 1])] = Except.ok
      [("loss_hum_mask", bceMeanMasks (gatherByBatch cexRegion [([0, 1], [0, 1])])
          (targetMasks (fun h => h.subject_id) cexMaskTargets [([0, 1], [0, 1])])),
       ("loss_obj_mask", bceMeanMasks (gatherByBatch cexRegion [([0, 1], [0, 1])])
          (targetMasks (fun h => h.object_id) cexMaskTargets [([0, 1], [0, 1])])),
       ("loss_uni_mask", bceMeanMasks (gatherByBatch cexRegion [([0, 1], [0, 1])])
          (unionMasks (targetMasks (fun h => h.subject_id) cexMaskTargets [([0, 1], [0, 1])])
            (targetMasks (fun h => h.object_id) cexMaskTargets [([0, 1], [0, 1])])))] ∧
    ∀ (t : Tensor), gatherByBatch t [([0, 1], [0, 1])]
      = (getSrcPermutationIdx [([0, 1], [0, 1])]).1.map (fun b => t.getD b []) :=
  loss_masks_amended cexMaskDict cexMaskTargets [([0, 1], [0, 1])]
    cexRegion cexRegion cexRegion rfl rfl rfl

/-! ### Claim C10 (confirmed): training + consider_all + non-focal fails -/

/-- **C10.** In training mode with `consider_all` set and focal loss
disabled, `_get_tgt_labels` returns `target_classes_t = None`, while the
text-to-image branch of `loss_labels` is gated only on the training flag and
dereferences `target_classes_t.shape`; the configuration therefore cannot
produce a loss value (the call fails for every input). -/
theorem loss_labels_consider_all_training_error (c : Config) (ld : TDict)
    (targets : List Target) (indices : Assignment)
    (ht : c.training = true) (hca : c.consider_all = true)
    (hf : c.enable_focal_loss = false) :
    (getTgtLabels c targets indices).2 = none ∧
    ∃ e, loss_labels c ld targets indices = Except.error e := by
  have htl : (getTgtLabels c targets indices).2 = none := by
    unfold getTgtLabels
    rw [ht, hca]
    simp
  refine ⟨htl, ?_⟩
  unfold loss_labels
  cases hld : ld.lookup "logits_per_hoi" with
  | none => exact ⟨_, rfl⟩
  | some lg =>
    refine ⟨"AttributeError: NoneType object has no attribute shape", ?_⟩
    rw [hf, ht]
    simp only [Bool.false_eq_true, if_false, if_true]
    rw [htl]

theorem loss_labels_consider_all_training_error_witness :
    (getTgtLabels cexCfg10 cexTargets [([0], [0])]).2 = none ∧
    ∃ e, loss_labels cexCfg10 [("logits_per_hoi", cexLG)] cexTargets [([0], [0])]
      = Except.error e :=
  loss_labels_consider_all_training_error cexCfg10 [("logits_per_hoi", cexLG)]
    cexTargets [([0], [0])] rfl rfl rfl

end Criterion
